import Mathlib

/-!
# gosoap: the SOAP envelope encoder and the call protocol

`src/encode.go` builds the SOAP envelope by handing a `baseContent` value and the fixed
start element `start` to Go's `encoding/xml` encoder.  The first part of this file embeds
the part of `encoding/xml` that `process.MarshalXML` runs (`marshalValue`, `marshalStruct`,
`marshalSimple`, `writeStart`, `writeEnd`, `EscapeText`), the second part embeds
`src/encode.go` itself, the third part holds the endpoint resolver and the call
orchestrator, whose Go source is not in `src/`.
-/

namespace xml

/-! ## encoding/xml: names, tokens and the printer -/

/-- Go `xml.Name`: a name space identifier and a local name. -/
structure Name where
  Space : String
  Local : String
deriving DecidableEq, Repr

/-- Go `xml.Attr`. -/
structure Attr where
  Name : Name
  Value : String
deriving DecidableEq, Repr

/-- Go `xml.StartElement`. -/
structure StartElement where
  Name : Name
  Attr : List Attr
deriving DecidableEq, Repr

/-- What the printer writes, one entry per call of `writeStart`, `writeEnd` and of the
character data writer.  A `StartElement` token holds the attributes `writeStart` wrote. -/
inductive Token where
  | StartElement (s : StartElement)
  | EndElement (n : Name)
  | CharData (s : String)
deriving DecidableEq, Repr

/-- The part of a Go `reflect.Type` the encoder reads: `Name()` (empty for an unnamed
type such as `map[string]string` or an anonymous struct) and `String()`. -/
structure rtype where
  Name : String
  Str : String
deriving DecidableEq, Repr

/-- Errors returned by the encoder: `UnsupportedTypeError` and the `fmt.Errorf` values of
`marshalValue`, `writeStart` and `writeEnd`. -/
inductive MarshalError where
  /-- Go `&UnsupportedTypeError{typ}`. -/
  | UnsupportedTypeError (typ : rtype)
  /-- Go "xml: EncodeElement of StartElement with missing name". -/
  | missingName
  /-- Go "xml: start tag with no name". -/
  | startTagNoName
  /-- Go "xml: end tag with no name". -/
  | endTagNoName
  /-- Go "xml: end tag </name> without start tag". -/
  | endTagWithoutStart (name : Name)
  /-- Go "xml: end tag </name> does not match start tag <top>". -/
  | endTagMismatch (name top : Name)
deriving DecidableEq, Repr

/-- Go `fieldInfo` of a struct field in element mode: the element name and name space
taken from the field tag (or the field name), and the `omitempty` flag. -/
structure fieldInfo where
  name : String
  xmlns : String
  omitEmpty : Bool
deriving DecidableEq, Repr

/-- Go values as the encoder sees them through `reflect`.

* `nil` is a nil interface or nil pointer, `ptr v` a non-nil pointer to `v` or a non-nil
  interface holding `v`;
* `string`, `int`, `bool` are values of the predeclared types;
* `map` is a map with string keys and string values;
* `slice` is a slice or array whose elements are not bytes;
* `struct typ xmlname fields` is a struct value together with its `typeInfo`:
  `xmlname` is the `fieldInfo` of its `XMLName` field with the `xml.Name` stored in it,
  `fields` are its fields in element mode, in declaration order.

Types that implement `xml.Marshaler` or `encoding.TextMarshaler`, fields in attribute,
character data, comment or inner XML mode and tags with a parent path `a>b` are outside
this universe. -/
inductive Value where
  | nil
  | string (s : String)
  | int (i : Int)
  | bool (b : Bool)
  | map (typ : rtype) (entries : List (String × String))
  | ptr (elem : Value)
  | slice (elems : List Value)
  | struct (typ : rtype) (xmlname : Option (fieldInfo × Name)) (fields : List (fieldInfo × Value))

/-- Go `isEmptyValue`. -/
def isEmptyValue : Value → Bool
  | .nil => true
  | .string s => s.length == 0
  | .int i => i == 0
  | .bool b => !b
  | .map _ entries => entries.length == 0
  | .ptr _ => false
  | .slice elems => elems.length == 0
  | .struct _ _ _ => false

/-- State of the Go `printer`: the tokens written so far and the stack of open tags
(`tags`, innermost first). -/
structure printer where
  out : List Token
  tags : List Name
deriving DecidableEq, Repr

/-- Go `printer.writeStart`: refuses an empty local name, pushes the name on `tags` and
writes the start tag; attributes with an empty local name are skipped. -/
def printer.writeStart (p : printer) (start : StartElement) : Except MarshalError printer :=
  if start.Name.Local = "" then
    .error .startTagNoName
  else
    .ok { out := p.out ++ [Token.StartElement
            { Name := start.Name, Attr := start.Attr.filter (fun a => a.Name.Local ≠ "") }],
          tags := start.Name :: p.tags }

/-- Go `printer.writeEnd`: the name must be the innermost open tag, which is popped. -/
def printer.writeEnd (p : printer) (name : Name) : Except MarshalError printer :=
  if name.Local = "" then
    .error .endTagNoName
  else
    match p.tags with
    | [] => .error (.endTagWithoutStart name)
    | top :: rest =>
      if top.Local = "" then .error (.endTagWithoutStart name)
      else if top ≠ name then .error (.endTagMismatch name top)
      else .ok { out := p.out ++ [Token.EndElement name], tags := rest }

/-- Character data written by `EscapeText` / `printer.EscapeString`. -/
def printer.EscapeString (p : printer) (s : String) : printer :=
  { p with out := p.out ++ [Token.CharData s] }

/-- Go `printer.marshalSimple` on the kinds of `Value`: the text of a string, integer or
boolean; every other kind is an `UnsupportedTypeError`. -/
def marshalSimple (typ : rtype) : Value → Except MarshalError String
  | .string s => .ok s
  | .int i => .ok (toString i)
  | .bool b => .ok (if b then "true" else "false")
  | _ => .error (.UnsupportedTypeError typ)

/-- The `reflect.Type` of a value of a basic kind or of a map or struct. -/
def Value.typ : Value → rtype
  | .string _ => ⟨"string", "string"⟩
  | .int _ => ⟨"int", "int"⟩
  | .bool _ => ⟨"bool", "bool"⟩
  | .map typ _ => typ
  | .struct typ _ _ => typ
  | _ => ⟨"", ""⟩

/-- Go `typ.Name()` as `marshalValue` uses it: the name of the type with the type
arguments of a generic instantiation, which start at `[`, cut off. -/
def typeName (typ : rtype) : String :=
  String.mk (typ.Name.data.takeWhile (fun c => c ≠ '['))

/-- The start element `marshalValue` creates.  Precedence for the element name:
the start template, the `XMLName` field of the struct (its tag, else its value), the
field name or tag of the enclosing struct field, the type name (cut at `[`); with no
name at all the type is unsupported. -/
def startElementFor (typ : rtype) (xmlname : Option (fieldInfo × Name))
    (finfo : Option fieldInfo) (startTemplate : Option StartElement) :
    Except MarshalError StartElement :=
  let start : StartElement :=
    match startTemplate, xmlname with
    | some t, _ => { Name := t.Name, Attr := t.Attr }
    | none, some (xi, v) =>
      if xi.name ≠ "" then { Name := ⟨xi.xmlns, xi.name⟩, Attr := [] }
      else if v.Local ≠ "" then { Name := v, Attr := [] }
      else { Name := ⟨"", ""⟩, Attr := [] }
    | none, none => { Name := ⟨"", ""⟩, Attr := [] }
  let start : StartElement :=
    match finfo with
    | some fi => if start.Name.Local = "" then { start with Name := ⟨fi.xmlns, fi.name⟩ } else start
    | none => start
  if start.Name.Local = "" then
    let name := typeName typ
    if name = "" then .error (.UnsupportedTypeError typ)
    else .ok { start with Name := ⟨start.Name.Space, name⟩ }
  else .ok start

/-- The `xmlns=""` attribute `marshalValue` appends when the struct has an `XMLName`
field with an empty tag, the element has no name space and the enclosing element has
one. -/
def overrideNamespace (p : printer) (xmlname : Option (fieldInfo × Name))
    (start : StartElement) : StartElement :=
  match xmlname, p.tags with
  | some (xi, _), top :: _ =>
    if start.Name.Space = "" ∧ xi.xmlns = "" ∧ xi.name = "" ∧ top.Space ≠ "" then
      { start with Attr := start.Attr ++ [⟨⟨"", "xmlns"⟩, ""⟩] }
    else start
  | _, _ => start

/-- The head of Go `printer.marshalValue`, before the value is looked into: a start
template without a local name is an error, an empty value under `omitempty` writes
nothing, otherwise the encoding `rest` of the value follows. -/
def marshalGuard (val : Value) (finfo : Option fieldInfo)
    (startTemplate : Option StartElement) (p : printer)
    (rest : Except MarshalError printer) : Except MarshalError printer :=
  if (match startTemplate with | some t => decide (t.Name.Local = "") | none => false) then
    .error .missingName
  else if (match finfo with | some fi => fi.omitEmpty | none => false) && isEmptyValue val then
    .ok p
  else
    rest

mutual
/-- Go `printer.marshalValue` after the `omitempty` test: interfaces and pointers are
followed (nil writes nothing), a slice writes its elements one after the other with no
enclosing tag, any other value is written as one element. -/
def marshalKind (val : Value) (finfo : Option fieldInfo)
    (startTemplate : Option StartElement) (p : printer) : Except MarshalError printer :=
  match val with
  | .nil => .ok p
  | .ptr elem => marshalKind elem finfo startTemplate p
  | .slice elems => marshalElems elems finfo startTemplate p
  | .struct typ xmlname fields => do
    let start ← startElementFor typ xmlname finfo startTemplate
    let p ← p.writeStart (overrideNamespace p xmlname start)
    let p ← marshalStruct fields p
    p.writeEnd start.Name
  | .string s => do
    let start ← startElementFor (Value.string s).typ none finfo startTemplate
    let p ← p.writeStart start
    let s ← marshalSimple (Value.string s).typ (.string s)
    (p.EscapeString s).writeEnd start.Name
  | .int i => do
    let start ← startElementFor (Value.int i).typ none finfo startTemplate
    let p ← p.writeStart start
    let s ← marshalSimple (Value.int i).typ (.int i)
    (p.EscapeString s).writeEnd start.Name
  | .bool b => do
    let start ← startElementFor (Value.bool b).typ none finfo startTemplate
    let p ← p.writeStart start
    let s ← marshalSimple (Value.bool b).typ (.bool b)
    (p.EscapeString s).writeEnd start.Name
  | .map typ entries => do
    let start ← startElementFor typ none finfo startTemplate
    let p ← p.writeStart start
    let s ← marshalSimple typ (.map typ entries)
    (p.EscapeString s).writeEnd start.Name
/-- The loop of `marshalValue` over the elements of a slice or array: each element goes
through `marshalValue` again, with the same field and start template. -/
def marshalElems (elems : List Value) (finfo : Option fieldInfo)
    (startTemplate : Option StartElement) (p : printer) : Except MarshalError printer :=
  match elems with
  | [] => .ok p
  | v :: rest => do
    let p ← marshalGuard v finfo startTemplate p (marshalKind v finfo startTemplate p)
    marshalElems rest finfo startTemplate p
/-- Go `printer.marshalStruct`: every field in element mode is written with
`marshalValue` under its own `fieldInfo`. -/
def marshalStruct (fields : List (fieldInfo × Value)) (p : printer) :
    Except MarshalError printer :=
  match fields with
  | [] => .ok p
  | (fi, vf) :: rest => do
    let p ← marshalGuard vf (some fi) none p (marshalKind vf (some fi) none p)
    marshalStruct rest p
end

/-- Go `printer.marshalValue`. -/
def marshalValue (val : Value) (finfo : Option fieldInfo)
    (startTemplate : Option StartElement) (p : printer) : Except MarshalError printer :=
  marshalGuard val finfo startTemplate p (marshalKind val finfo startTemplate p)

/-- Go `Encoder.EncodeElement`: `marshalValue` of the value under the given start
element. -/
def EncodeElement (e : printer) (v : Value) (start : StartElement) :
    Except MarshalError printer :=
  marshalValue v none (some start) e

/-! ## Reading the written tokens back as a document -/

/-- An XML document node: an element with its start tag and children, or character
data. -/
inductive Node where
  | element (start : StartElement) (children : List Node)
  | text (s : String)

mutual
/-- The tokens of a node, in document order. -/
def Node.tokens : Node → List Token
  | .element start children =>
    Token.StartElement start :: (forestTokens children ++ [Token.EndElement start.Name])
  | .text s => [Token.CharData s]
/-- The tokens of a sequence of sibling nodes. -/
def forestTokens : List Node → List Token
  | [] => []
  | n :: rest => n.tokens ++ forestTokens rest
end

/-- Reader for a token sequence: `stack` holds the open elements, each with the
siblings read before it (latest first), `acc` the nodes read at the current level
(latest first).  An end tag must name the innermost open element. -/
def parseAux : List Token → List (StartElement × List Node) → List Node → Option (List Node)
  | [], [], acc => some acc.reverse
  | [], _ :: _, _ => none
  | Token.StartElement s :: rest, stack, acc => parseAux rest ((s, acc) :: stack) []
  | Token.CharData c :: rest, stack, acc => parseAux rest stack (Node.text c :: acc)
  | Token.EndElement _ :: _, [], _ => none
  | Token.EndElement n :: rest, (s, outer) :: stack, acc =>
    if s.Name = n then parseAux rest stack (Node.element s acc.reverse :: outer) else none

/-- The top-level nodes of a token sequence, `none` when it is not well nested. -/
def parse (toks : List Token) : Option (List Node) :=
  parseAux toks [] []

/-- Name of an element node. -/
def Node.name? : Node → Option Name
  | .element start _ => some start.Name
  | .text _ => none

/-- Children of an element node (none for character data). -/
def Node.children : Node → List Node
  | .element _ children => children
  | .text _ => []

/-- Whether the node is an element. -/
def Node.isElement : Node → Bool
  | .element _ _ => true
  | .text _ => false

/-! ## The bytes of a token -/

/-- Go `escapeText` with `escapeNewline = true`, one character at a time. -/
def escapeChar (c : Char) : List Char :=
  if c = Char.ofNat 34 then "&#34;".data
  else if c = Char.ofNat 39 then "&#39;".data
  else if c = '&' then "&amp;".data
  else if c = '<' then "&lt;".data
  else if c = '>' then "&gt;".data
  else if c = Char.ofNat 9 then "&#x9;".data
  else if c = Char.ofNat 10 then "&#xA;".data
  else if c = Char.ofNat 13 then "&#xD;".data
  else if c.val = 0x09 ∨ c.val = 0x0A ∨ c.val = 0x0D ∨ (0x20 ≤ c.val ∧ c.val ≤ 0xD7FF) ∨
      (0xE000 ≤ c.val ∧ c.val ≤ 0xFFFD) ∨ (0x10000 ≤ c.val ∧ c.val ≤ 0x10FFFF) then [c]
  else [Char.ofNat 0xFFFD]

/-- Go `EscapeText` / `printer.EscapeString`. -/
def EscapeText (s : String) : String :=
  String.mk (s.data.flatMap escapeChar)

/-- Bytes `writeStart` writes for one attribute whose name has no name space; the
prefix the encoder invents for a name space is not modelled (`none`). -/
def Attr.bytes (a : Attr) : Option String :=
  if a.Name.Space = "" then some (" " ++ a.Name.Local ++ "=\"" ++ EscapeText a.Value ++ "\"")
  else none

/-- Bytes `writeStart` writes for the attributes of a start tag, in order. -/
def attrsBytes : List Attr → Option String
  | [] => some ""
  | a :: rest =>
    match a.bytes, attrsBytes rest with
    | some first, some others => some (first ++ others)
    | _, _ => none

/-- Bytes written for a token by an encoder without indentation. -/
def Token.bytes : Token → Option String
  | .StartElement s =>
    match attrsBytes s.Attr with
    | some attrs =>
      some ("<" ++ s.Name.Local
        ++ (if s.Name.Space = "" then "" else " xmlns=\"" ++ EscapeText s.Name.Space ++ "\"")
        ++ attrs ++ ">")
    | none => none
  | .EndElement n => some ("</" ++ n.Local ++ ">")
  | .CharData s => some (EscapeText s)

/-- Bytes of a token sequence, as written by `xml.Marshal`. -/
def render : List Token → Option String
  | [] => some ""
  | t :: rest =>
    match t.bytes, render rest with
    | some first, some others => some (first ++ others)
    | _, _ => none

/-! ## What an encoding step wrote -/

/-- The start element as `writeStart` writes it. -/
def StartElement.written (start : StartElement) : StartElement :=
  { Name := start.Name, Attr := start.Attr.filter (fun a => a.Name.Local ≠ "") }

/-- Relation between the printer before and after a successful encoding step: the open
tags are the same and the tokens of the nodes `f` were appended. -/
def Wrote (p p' : printer) (f : List Node) : Prop :=
  p'.tags = p.tags ∧ p'.out = p.out ++ forestTokens f

/-- The value behind pointers and interfaces is written as one element: it is a struct,
a map or of a basic kind (not nil, not a slice). -/
def Value.isElementKind : Value → Bool
  | .nil => false
  | .slice _ => false
  | .ptr elem => elem.isElementKind
  | _ => true

/-! ## The document an encoding writes -/

/-- Name of the element written for a value that is not nested under a start template,
in the order of precedence of `marshalValue`: the tag of the value's `XMLName` field,
else the name stored in that field, else the tag (or name) of the struct field that
holds the value, else the name of the value's type, cut at `[`; `none` when all of them
are empty. -/
def elementName (typ : rtype) (xmlname : Option (fieldInfo × Name))
    (finfo : Option fieldInfo) : Option Name :=
  let ofType (space : String) : Option Name :=
    if typeName typ = "" then none else some ⟨space, typeName typ⟩
  let ofField : Option Name :=
    match finfo with
    | some fi => if fi.name ≠ "" then some ⟨fi.xmlns, fi.name⟩ else ofType fi.xmlns
    | none => ofType ""
  match xmlname with
  | some (xi, v) =>
    if xi.name ≠ "" then some ⟨xi.xmlns, xi.name⟩
    else if v.Local ≠ "" then some v
    else ofField
  | none => ofField

/-- Attributes of the element written for a struct outside a start template: the one
attribute `xmlns=""` when the struct has an `XMLName` field with an empty tag, the
element has no name space and the enclosing element has one; none otherwise. -/
def emptyNamespaceAttr (enclosing : Option Name) (xmlname : Option (fieldInfo × Name))
    (name : Name) : List Attr :=
  match xmlname, enclosing with
  | some (xi, _), some top =>
    if name.Space = "" ∧ xi.xmlns = "" ∧ xi.name = "" ∧ top.Space ≠ "" then
      [⟨⟨"", "xmlns"⟩, ""⟩]
    else []
  | _, _ => []

/-- The element holding the text of a value of a basic kind. -/
def textElement (typ : rtype) (finfo : Option fieldInfo) (text : String) :
    Except MarshalError (List Node) :=
  match elementName typ none finfo with
  | none => .error (.UnsupportedTypeError typ)
  | some name => .ok [Node.element ⟨name, []⟩ [Node.text text]]

mutual
/-- The nodes written for a value held by a struct field (`finfo`) inside the element
`enclosing`: nothing for a nil pointer or interface; the nodes of the value pointed to;
for a slice the nodes of its items one after the other; for a struct one element named
by `elementName` whose children are the nodes of its fields; for a string, integer or
boolean one element holding its text; a map cannot be written. -/
def valueNodes (val : Value) (finfo : Option fieldInfo) (enclosing : Option Name) :
    Except MarshalError (List Node) :=
  match val with
  | .nil => .ok []
  | .ptr elem => valueNodes elem finfo enclosing
  | .slice elems => itemNodes elems finfo enclosing
  | .struct typ xmlname fields =>
    match elementName typ xmlname finfo with
    | none => .error (.UnsupportedTypeError typ)
    | some name =>
      match fieldsNodes fields name with
      | .error err => .error err
      | .ok children =>
        .ok [Node.element ⟨name, emptyNamespaceAttr enclosing xmlname name⟩ children]
  | .string s => textElement ⟨"string", "string"⟩ finfo s
  | .int i => textElement ⟨"int", "int"⟩ finfo (toString i)
  | .bool b => textElement ⟨"bool", "bool"⟩ finfo (if b then "true" else "false")
  | .map typ _ => .error (.UnsupportedTypeError typ)
/-- The nodes written for the items of a slice, in order; an empty item under
`omitempty` writes nothing. -/
def itemNodes (elems : List Value) (finfo : Option fieldInfo) (enclosing : Option Name) :
    Except MarshalError (List Node) :=
  match elems with
  | [] => .ok []
  | v :: rest =>
    match (if (match finfo with | some fi => fi.omitEmpty | none => false) && isEmptyValue v
        then .ok [] else valueNodes v finfo enclosing) with
    | .error err => .error err
    | .ok first =>
      match itemNodes rest finfo enclosing with
      | .error err => .error err
      | .ok others => .ok (first ++ others)
/-- The children of the element `parent` written for a struct: the nodes of its fields,
field by field in declaration order; an empty field under `omitempty` writes nothing. -/
def fieldsNodes (fields : List (fieldInfo × Value)) (parent : Name) :
    Except MarshalError (List Node) :=
  match fields with
  | [] => .ok []
  | (fi, vf) :: rest =>
    match (if fi.omitEmpty && isEmptyValue vf then .ok []
        else valueNodes vf (some fi) (some parent)) with
    | .error err => .error err
    | .ok first =>
      match fieldsNodes rest parent with
      | .error err => .error err
      | .ok others => .ok (first ++ others)
end

/-- The printer after the nodes `f` have been written. -/
def printer.wrote (p : printer) (f : List Node) : printer :=
  { out := p.out ++ forestTokens f, tags := p.tags }

end xml

namespace gosoap

open xml

/-! ## src/encode.go -/

/-- The package variable `start` (src/encode.go:7-17). -/
def start : StartElement :=
  { Name := { Space := "", Local := "soap:Envelope" },
    Attr := [
      { Name := { Space := "", Local := "xmlns:xsi" }, Value := "http://www.w3.org/2001/XMLSchema-instance" },
      { Name := { Space := "", Local := "xmlns:xsd" }, Value := "http://www.w3.org/2001/XMLSchema" },
      { Name := { Space := "", Local := "xmlns:soap" }, Value := "http://schemas.xmlsoap.org/soap/envelope/" } ] }

/-- The `fieldInfo` of `baseContent.Body`, from the tag `xml:"soap:Body"`. -/
def bodyInfo : fieldInfo := ⟨"soap:Body", "", false⟩

/-- The `fieldInfo` of the untagged field `Data` of `baseContent.Body`. -/
def dataInfo : fieldInfo := ⟨"Data", "", false⟩

/-- The `fieldInfo` of `baseContent.Header`, from the tag `xml:"soap:Header"`. -/
def headerInfo : fieldInfo := ⟨"soap:Header", "", false⟩

/-- A value of type `xml.Name` as the encoder sees it: `getTypeInfo` collects the fields
of a struct type only when the type is not `xml.Name` (`typ != nameType`), so its
`typeInfo` has no field and no `XMLName`, whatever the name stored in it. -/
def nameValue (_n : Name) : Value :=
  .struct ⟨"Name", "xml.Name"⟩ none []

/-- The `typeInfo` of `baseContent.Body`: an anonymous struct with the untagged
interface field `Data`. -/
def bodyValue (Data : Value) : Value :=
  .struct ⟨"", "struct \x7b Data interface \x7b\x7d \x7d"⟩ none [ (dataInfo, Data) ]

/-- A value of type `baseContent` (src/encode.go:19-24): field `Body` tagged
`soap:Body` holding `Data`, field `Header` of type `xml.Name` tagged `soap:Header`. -/
def baseContent (Data : Value) (Header : Name) : Value :=
  .struct ⟨"baseContent", "gosoap.baseContent"⟩ none
    [ (bodyInfo, bodyValue Data), (headerInfo, nameValue Header) ]

/-- Modelled from the spec: the type `Request` is declared outside `src/`; an Operation
is "a name plus a mapping from parameter name to value", the value being what the caller
passes (`Call(m, p)`, `NewRequest(m, p)` in src/soap_test.go). -/
structure Request where
  Method : String
  Params : Value

/-- Modelled from the spec: the type `process` is declared outside `src/`; `MarshalXML`
reads `c.Request.Params`, `doRequest` sends `Payload`. -/
structure process where
  Request : Request
  Payload : String

/-- Go `process.MarshalXML` (src/encode.go:26-34): the start element passed in is
ignored; the content has `Body.Data = c.Request.Params` and the zero `Header`. -/
def process.MarshalXML (c : process) (e : printer) (_s : StartElement) :
    Except MarshalError printer :=
  let content := baseContent c.Request.Params ⟨"", ""⟩
  EncodeElement e content start

/-- The printer after `<soap:Envelope ...>` and `<soap:Body>` have been written. -/
def openBody (e : printer) : printer :=
  { out := e.out ++ [Token.StartElement start, Token.StartElement ⟨⟨"", "soap:Body"⟩, []⟩],
    tags := ⟨"", "soap:Body"⟩ :: ⟨"", "soap:Envelope"⟩ :: e.tags }

/-- The `soap:Header` element of every envelope: the `xml.Name` of `baseContent.Header`
written as a struct without fields. -/
def headerNode : Node :=
  .element ⟨⟨"", "soap:Header"⟩, []⟩ []

/-- The children of the root element of a written document, each with its name and the
names of its own children; `none` when the tokens are not one well-nested root
element. -/
def envelopeChildren (toks : List Token) : Option (List (Option Name × List (Option Name))) :=
  match parse toks with
  | some [Node.element _ children] =>
    some (children.map (fun n => (n.name?, n.children.map Node.name?)))
  | _ => none

/-- The printer after `</soap:Body>`, the header and `</soap:Envelope>` have been written
behind the content of the body. -/
def closeEnvelope (e : printer) (p : printer) : printer :=
  { out := p.out ++ (Token.EndElement ⟨"", "soap:Body"⟩ :: headerNode.tokens ++
      [Token.EndElement ⟨"", "soap:Envelope"⟩]),
    tags := e.tags }

/-- The children of the one `soap:Body` child of the root element of a written
document; `none` when the tokens are not one well-nested root element or the root has
no or several `soap:Body` children. -/
def bodyChildren (toks : List Token) : Option (List Node) :=
  match parse toks with
  | some [Node.element _ children] =>
    match children.filter (fun n => decide (n.name? = some ⟨"", "soap:Body"⟩)) with
    | [body] => some body.children
    | _ => none
  | _ => none

/-- The tokens a successful `MarshalXML` wrote on a fresh encoder. -/
def encoded (c : process) : Option (List Token) :=
  match c.MarshalXML ⟨[], []⟩ ⟨⟨"", ""⟩, []⟩ with
  | .ok e => some e.out
  | .error _ => none

/-- The request value `CapitalCity` of src/soap_test.go:43-46: `XMLName` tagged
`CapitalCity`, field `SCountryISOCode` tagged `sCountryISOCode`. -/
def CapitalCity (SCountryISOCode : String) : Value :=
  .struct ⟨"CapitalCity", "gosoap.CapitalCity"⟩ (some (⟨"CapitalCity", "", false⟩, ⟨"", ""⟩))
    [ (⟨"sCountryISOCode", "", false⟩, .string SCountryISOCode) ]

/-- The request value `Whois` of src/soap_test.go:48-50: no `XMLName`, field
`DomainName` tagged `DomainName`. -/
def Whois (DomainName : String) : Value :=
  .struct ⟨"Whois", "gosoap.Whois"⟩ none [ (⟨"DomainName", "", false⟩, .string DomainName) ]

/-- The tokens of the envelope whose body holds the nodes `content`. -/
def envelopeTokens (content : List Node) : List Token :=
  (Node.element start [Node.element ⟨⟨"", "soap:Body"⟩, []⟩ content, headerNode]).tokens

/-- The element written for `CapitalCity{SCountryISOCode: "GB"}`. -/
def capitalCityNode : Node :=
  .element ⟨⟨"", "CapitalCity"⟩, []⟩ [.element ⟨⟨"", "sCountryISOCode"⟩, []⟩ [.text "GB"]]

/-- The element written for `Whois{DomainName: "google.com"}`. -/
def whoisNode : Node :=
  .element ⟨⟨"", "Data"⟩, []⟩ [.element ⟨⟨"", "DomainName"⟩, []⟩ [.text "google.com"]]

/-- The process of `Call("CapitalCity", CapitalCity{SCountryISOCode: "GB"})`
(src/soap_test.go:101). -/
def capitalCityCall : process := ⟨⟨"CapitalCity", CapitalCity "GB"⟩, ""⟩

/-- The process of `Call("Whois", Whois{DomainName: "google.com"})`
(src/soap_test.go:133). -/
def whoisCall : process := ⟨⟨"Whois", Whois "google.com"⟩, ""⟩

/-- The text `marshalSimple` gives for a value of a basic kind; `none` for every other
value. -/
def basicText : Value → Option String
  | .string s => some s
  | .int i => some (toString i)
  | .bool b => some (if b then "true" else "false")
  | _ => none

/-- The elements written for fields that hold strings, integers or booleans: one element
per field, in order, named by the field's tag and holding the text of the field value; a
field under `omitempty` with an empty value is left out. -/
def textFieldNodes (fields : List (fieldInfo × Value)) : List Node :=
  (fields.filter (fun f => !(f.1.omitEmpty && isEmptyValue f.2))).map
    (fun f => Node.element ⟨⟨f.1.xmlns, f.1.name⟩, []⟩ [Node.text ((basicText f.2).getD "")])

/-- The bytes of the content of the `soap:Body` of the envelope of a process, as written
by an encoder without indentation. -/
def bodyBytes (c : process) : Option String :=
  ((encoded c).bind bodyChildren).bind (fun content => render (forestTokens content))

/-- A struct with the `XMLName` tag `T` and one field with the given tag and value. -/
def oneField (tag : String) (v : Value) : Value :=
  .struct ⟨"T", "gosoap.T"⟩ (some (⟨"T", "", false⟩, ⟨"", ""⟩)) [ (⟨tag, "", false⟩, v) ]

/-! ## Endpoint resolution and the call protocol

The Go source of `Client`, `getLocation`, `SetWSDL`, `Call` and `doRequest` is not in
`src/`; only their test (src/soap_test.go) is.  The definitions of this section are
modelled from the specification. -/

/-- Modelled from the spec: the parts of a URL that §4.2 names, "scheme", "host"
(with its port) and "path", and the query that follows the path. -/
structure URL where
  Scheme : String
  Host : String
  Path : String
  RawQuery : String
deriving DecidableEq, Repr

/-- Modelled from the spec: helper of the URL splitting of §4.2, the characters before
the first `sep` and those after it (none after it when `sep` does not occur). -/
def cutAt (sep : Char) : List Char → List Char × List Char
  | [] => ([], [])
  | c :: cs => if c = sep then ([], cs) else ((cutAt sep cs).1.cons c, (cutAt sep cs).2)

/-- Modelled from the spec: the scheme of a URL is the run of letters, digits, `+`, `-`
and `.`, starting with a letter, that ends at the first `:`; a URL that starts with `:`
has no scheme and is malformed (`none`), as `://bad.` of §8.4.  `seen` holds the
characters read so far, `raw` the whole text. -/
def getScheme (raw : List Char) : List Char → List Char → Option (List Char × List Char)
  | _, [] => some ([], raw)
  | seen, c :: cs =>
    if c.isAlpha then getScheme raw (seen ++ [c]) cs
    else if c.isDigit ∨ c = '+' ∨ c = '-' ∨ c = '.' then
      if seen = [] then some ([], raw) else getScheme raw (seen ++ [c]) cs
    else if c = ':' then
      if seen = [] then none else some (seen, cs)
    else some ([], raw)

/-- Modelled from the spec: helper of the URL splitting of §4.2, the characters after the
last `sep` (all of them when `sep` does not occur). -/
def afterLast (sep : Char) : List Char → List Char
  | [] => []
  | c :: cs => if sep ∈ cs then afterLast sep cs else if c = sep then cs else c :: cs

/-- Modelled from the spec: splitting of a URL into scheme, host and path (§4.2), the
way Go's `url.Parse` splits it: the fragment after `#` and the query after `?` are cut
off, the scheme ends at the first `:`, the authority is what stands between `//` and the
next `/`, the host is the authority without the user information that ends at its last
`@`, the path is the rest.  `none` is a URL that cannot be split: one that holds a
control character, one without a scheme before its `:`, one without scheme whose first
path segment holds a `:`, or one whose port is not a number.  Percent-escapes are kept
as written. -/
def parseURL (rawURL : String) : Option URL :=
  let u := (cutAt '#' rawURL.data).1
  if u.any (fun c => decide (c.val < 0x20 ∨ c.val = 0x7f)) then none
  else
  match getScheme u [] u with
  | none => none
  | some (scheme, rest) =>
    let scheme := scheme.map Char.toLower
    let query := (cutAt '?' rest).2
    let rest := (cutAt '?' rest).1
    if rest.head? ≠ some '/' ∧ scheme ≠ [] then
      some ⟨String.mk scheme, "", "", String.mk query⟩
    else if rest.head? ≠ some '/' ∧ ':' ∈ (cutAt '/' rest).1 then
      none
    else
      match rest with
      | '/' :: '/' :: authority =>
        if scheme = [] ∧ authority.head? = some '/' then
          some ⟨String.mk scheme, "", String.mk rest, String.mk query⟩
        else
          let host := afterLast '@' (authority.takeWhile (fun c => c ≠ '/'))
          let path := authority.dropWhile (fun c => c ≠ '/')
          if host.head? ≠ some '[' ∧ ':' ∈ host ∧ ¬ (afterLast ':' host).all Char.isDigit then
            none
          else
            some ⟨String.mk scheme, String.mk host, String.mk path, String.mk query⟩
      | _ => some ⟨String.mk scheme, "", String.mk rest, String.mk query⟩

/-- Modelled from the spec: a URL that is not "malformed (no scheme/host)" in the sense
of §4.2: it can be split and has both a scheme and a host. -/
def wellFormedURL (rawURL : String) : Option URL :=
  match parseURL rawURL with
  | none => none
  | some u => if u.Scheme = "" ∨ u.Host = "" then none else some u

/-- Modelled from the spec: the type `soapAddress` is declared outside `src/`; an
Address entry of §3 with its location, as built in src/soap_test.go:212-214. -/
structure soapAddress where
  Location : String
deriving DecidableEq, Repr

/-- Modelled from the spec: the type `wsdlPort` is declared outside `src/`; a Port entry
of §3 with its ordered addresses, as built in src/soap_test.go:215-217. -/
structure wsdlPort where
  SoapAddresses : List soapAddress
deriving DecidableEq, Repr

/-- Modelled from the spec: the type `wsdlService` is declared outside `src/`; a Service
entry of §3 with its ordered ports, as built in src/soap_test.go:218-220. -/
structure wsdlService where
  Ports : List wsdlPort
deriving DecidableEq, Repr

/-- Modelled from the spec: the type `wsdlDefinitions` is declared outside `src/`; the
WsdlDocument of §3, an ordered collection of services, as built in src/soap_test.go:221. -/
structure wsdlDefinitions where
  Services : List wsdlService
deriving DecidableEq, Repr

/-- Modelled from the spec: the type `Client` is declared outside `src/`; the
ClientConfig of §3 with the fields set in src/soap_test.go:226-231: the WSDL source, the
flag `UseDefinitionURL` and the cached definitions, absent until they are populated.
The HTTP collaborator is passed to the operations. -/
structure Client where
  wsdl : String
  UseDefinitionURL : Bool
  Definitions : Option wsdlDefinitions
deriving DecidableEq, Repr

deriving instance DecidableEq for Except

/-- Modelled from the spec: the error kinds of §7, and `MarshalError` for an error returned by
`process.MarshalXML`, which §7 does not name and which is handed to the caller
unchanged ("none are silently swallowed"). -/
inductive SoapError where
  | InvalidWsdlURLError
  | ParseError
  | NoEndpointError
  | EmptyBodyError
  | TransportError
  | DecodeError
  | MarshalError (err : xml.MarshalError)
deriving DecidableEq, Repr

/-- Modelled from the spec: §4.2 step 1, "the first address location from the first
port of the first service". -/
def firstAddress (d : wsdlDefinitions) : Option String :=
  match d.Services with
  | [] => none
  | service :: _ =>
    match service.Ports with
    | [] => none
    | port :: _ =>
      match port.SoapAddresses with
      | [] => none
      | address :: _ => some address.Location

/-- Modelled from the spec: `Client.getLocation` is not in `src/`.  §4.2: step 1 takes
the first address location and fails with `NoEndpointError` when there is none; "if the
WSDL source URL itself is malformed (no scheme/host), resolution fails with
`InvalidWsdlURLError`"; step 2, "if `useDefinitionURL` is true, return that address
location verbatim"; step 3, "if false, reconstruct the endpoint from the scheme and host
of the original WSDL source URL combined with the path of the discovered address". -/
def Client.getLocation (c : Client) : Except SoapError String :=
  match c.Definitions.bind firstAddress with
  | none => .error .NoEndpointError
  | some location =>
    match wellFormedURL c.wsdl with
    | none => .error .InvalidWsdlURLError
    | some wsdlURL =>
      if c.UseDefinitionURL then .ok location
      else
        match parseURL location with
        | none => .error .InvalidWsdlURLError
        | some definitionURL =>
          .ok (wsdlURL.Scheme ++ "://" ++ wsdlURL.Host ++ definitionURL.Path)

/-- Modelled from the spec: `setWSDLSource` of §4.4 "replaces the WSDL source and
invalidates any cached WsdlDocument". -/
def Client.SetWSDL (c : Client) (wsdl : String) : Client :=
  { c with wsdl := wsdl, Definitions := none }

/-- Modelled from the spec: a request handed to the HTTP collaborator of §6,
`send(method, url, headers, body)`. -/
structure HttpRequest where
  method : String
  url : String
  contentType : String
  body : String
deriving DecidableEq, Repr

/-- Modelled from the spec: the HTTP collaborator of §6, giving the response body, or
`none` when the exchange cannot complete. -/
abbrev HttpClient := HttpRequest → Option String

/-- Modelled from the spec: the CallResult of §3, the raw response body. -/
structure Response where
  Body : String
deriving DecidableEq, Repr

/-- Modelled from the spec: what an operation returns together with the requests it
handed to the HTTP collaborator, in order. -/
structure Outcome (α : Type) where
  result : Except SoapError α
  sent : List HttpRequest

/-- Modelled from the spec: `process.doRequest` is not in `src/`.  A malformed URL
fails with `InvalidWsdlURLError` and an empty payload with `EmptyBodyError`, both before
the HTTP exchange (§4.2, §4.4, src/soap_test.go:199-207); otherwise the payload is sent
by "a blocking HTTP POST with content-type `text/xml; charset=utf-8`" and the raw
response body is returned, `TransportError` "when the HTTP exchange cannot complete". -/
def process.doRequest (http : HttpClient) (p : process) (url : String) : Outcome String :=
  match wellFormedURL url with
  | none => ⟨.error .InvalidWsdlURLError, []⟩
  | some _ =>
    if p.Payload = "" then ⟨.error .EmptyBodyError, []⟩
    else
      let req : HttpRequest := ⟨"POST", url, "text/xml; charset=utf-8", p.Payload⟩
      match http req with
      | none => ⟨.error .TransportError, [req]⟩
      | some body => ⟨.ok body, [req]⟩

/-- Modelled from the spec: the params of a call are "empty/absent" (§7) when they are
nil or a mapping without entries. -/
def paramsEmpty : Value → Bool
  | .nil => true
  | .map _ entries => entries.isEmpty
  | _ => false

/-- Modelled from the spec: the cached WsdlDocument of a client, "lazily populated":
when absent the WSDL source is fetched "via the HTTP collaborator with an HTTP GET" and
parsed by the parser of §4.1, which is the parameter `parseWsdl`. -/
def Client.definitions (http : HttpClient) (parseWsdl : String → Option wsdlDefinitions)
    (c : Client) : Outcome wsdlDefinitions :=
  match c.Definitions with
  | some d => ⟨.ok d, []⟩
  | none =>
    let req : HttpRequest := ⟨"GET", c.wsdl, "", ""⟩
    match http req with
    | none => ⟨.error .InvalidWsdlURLError, [req]⟩
    | some body =>
      match parseWsdl body with
      | none => ⟨.error .ParseError, [req]⟩
      | some d => ⟨.ok d, [req]⟩

/-- Modelled from the spec: what `Client.Call` returns, namely the result or error, the
requests handed to the HTTP collaborator, in order, and the client with its cached
WsdlDocument. -/
structure CallOutcome where
  result : Except SoapError Response
  sent : List HttpRequest
  client : Client

/-- Modelled from the spec: `Client.Call` is not in `src/`.  §4.4: the call "builds an
Operation, resolves the endpoint (4.2), encodes the envelope (4.3), performs a blocking
HTTP POST" and returns the raw response, in this order.  Building the Operation fails
with `EmptyBodyError` for an empty operation name or empty params (§7, §8.5); resolving
the endpoint fails with `InvalidWsdlURLError` for a malformed WSDL source "before any
HTTP call is attempted" (§4.2, §8.4); the envelope is encoded by `process.MarshalXML`
(src/encode.go) on a fresh encoder. -/
def Client.Call (http : HttpClient) (parseWsdl : String → Option wsdlDefinitions)
    (c : Client) (m : String) (p : Value) : CallOutcome :=
  if m = "" ∨ paramsEmpty p = true then ⟨.error .EmptyBodyError, [], c⟩
  else
    match wellFormedURL c.wsdl with
    | none => ⟨.error .InvalidWsdlURLError, [], c⟩
    | some _ =>
      let defs := c.definitions http parseWsdl
      match defs.result with
      | .error err => ⟨.error err, defs.sent, c⟩
      | .ok d =>
        let c : Client := { c with Definitions := some d }
        match c.getLocation with
        | .error err => ⟨.error err, defs.sent, c⟩
        | .ok location =>
          let pr : process := ⟨⟨m, p⟩, ""⟩
          match pr.MarshalXML ⟨[], []⟩ ⟨⟨"", "process"⟩, []⟩ with
          | .error err => ⟨.error (.MarshalError err), defs.sent, c⟩
          | .ok e =>
            let sent := ({ pr with Payload := (render e.out).getD "" } : process).doRequest
              http location
            match sent.result with
            | .error err => ⟨.error err, defs.sent ++ sent.sent, c⟩
            | .ok body => ⟨.ok ⟨body⟩, defs.sent ++ sent.sent, c⟩

/-- The definitions built by `initDefinition` in `TestUseDefinitionURL`
(src/soap_test.go:211-224): one service with one port with one address. -/
def initDefinition (location : String) : wsdlDefinitions :=
  ⟨[⟨[⟨[⟨location⟩]⟩]⟩]⟩

end gosoap

/-! ## Theorems -/

namespace xml

theorem forestTokens_append (f g : List Node) :
    forestTokens (f ++ g) = forestTokens f ++ forestTokens g := by
  induction f with
  | nil => simp [forestTokens]
  | cons n f ih => simp [forestTokens, ih]

theorem forestTokens_singleton (n : Node) : forestTokens [n] = n.tokens := by
  simp [forestTokens]

theorem Wrote.refl (p : printer) : Wrote p p [] := by
  simp [Wrote, forestTokens]

theorem Wrote.trans {p q r : printer} {f g : List Node} (h1 : Wrote p q f) (h2 : Wrote q r g) :
    Wrote p r (f ++ g) := by
  obtain ⟨t1, o1⟩ := h1
  obtain ⟨t2, o2⟩ := h2
  exact ⟨t2.trans t1, by rw [o2, o1, forestTokens_append, List.append_assoc]⟩

theorem writeStart_ok {p p1 : printer} {start : StartElement}
    (h : p.writeStart start = .ok p1) :
    p1 = ⟨p.out ++ [Token.StartElement start.written], start.Name :: p.tags⟩ := by
  unfold printer.writeStart at h
  split at h
  · cases h
  · cases h; rfl

theorem writeEnd_ok {p p1 : printer} {name : Name}
    (h : p.writeEnd name = .ok p1) :
    p.tags = name :: p1.tags ∧ p1.out = p.out ++ [Token.EndElement name] := by
  unfold printer.writeEnd at h
  split at h
  · cases h
  · split at h
    · cases h
    · rename_i top rest htags
      split at h
      · cases h
      · split at h
        · cases h
        · rename_i hne
          cases h
          simp only [ne_eq, Decidable.not_not] at hne
          simp [htags, hne]

/-- An element written by `writeStart`, a body and `writeEnd` is one element node. -/
theorem wrote_element {p p1 p2 p3 : printer} {start : StartElement} {name : Name} {f : List Node}
    (hs : p.writeStart start = .ok p1) (hb : Wrote p1 p2 f) (he : p2.writeEnd name = .ok p3) :
    name = start.Name ∧ Wrote p p3 [Node.element start.written f] := by
  have h1 := writeStart_ok hs
  obtain ⟨ht, ho⟩ := hb
  obtain ⟨et, eo⟩ := writeEnd_ok he
  subst h1
  simp only at ht ho
  rw [ht] at et
  injection et with hname htags
  refine ⟨hname.symm, htags.symm, ?_⟩
  rw [eo, ho]
  simp [forestTokens, Node.tokens, StartElement.written, hname]

theorem marshalGuard_ok {val : Value} {finfo : Option fieldInfo}
    {startTemplate : Option StartElement} {p p' : printer} {rest : Except MarshalError printer}
    (h : marshalGuard val finfo startTemplate p rest = .ok p') :
    p' = p ∨ rest = .ok p' := by
  unfold marshalGuard at h
  split at h
  · cases h
  · split at h
    · cases h; exact Or.inl rfl
    · exact Or.inr h

/-- Writing a value of a basic kind: one element holding the text. -/
theorem wrote_simple {p p' : printer} {typ : rtype} {finfo : Option fieldInfo}
    {startTemplate : Option StartElement} {s : String}
    (h : (do
      let start ← startElementFor typ none finfo startTemplate
      let p ← p.writeStart start
      let s ← (Except.ok s : Except MarshalError String)
      (p.EscapeString s).writeEnd start.Name) = Except.ok p') :
    ∃ start, startElementFor typ none finfo startTemplate = .ok start ∧
      Wrote p p' [Node.element start.written [Node.text s]] := by
  cases hs : startElementFor typ none finfo startTemplate with
  | error e => simp [hs, bind, Except.bind] at h
  | ok start =>
    cases hw : p.writeStart start with
    | error e => simp [hs, hw, bind, Except.bind] at h
    | ok p1 =>
      simp only [hs, hw, bind, Except.bind] at h
      refine ⟨start, rfl, ?_⟩
      have hb : Wrote p1 (p1.EscapeString s) [Node.text s] := by
        simp [Wrote, printer.EscapeString, forestTokens, Node.tokens]
      exact (wrote_element hw hb h).2

mutual
theorem marshalKind_wrote (val : Value) (finfo : Option fieldInfo)
    (startTemplate : Option StartElement) (p p' : printer)
    (h : marshalKind val finfo startTemplate p = .ok p') : ∃ f, Wrote p p' f := by
  cases val with
  | nil =>
    simp only [marshalKind] at h
    cases h
    exact ⟨[], Wrote.refl p⟩
  | ptr elem =>
    simp only [marshalKind] at h
    exact marshalKind_wrote elem finfo startTemplate p p' h
  | slice elems =>
    simp only [marshalKind] at h
    exact marshalElems_wrote elems finfo startTemplate p p' h
  | struct typ xmlname fields =>
    simp only [marshalKind] at h
    cases hs : startElementFor typ xmlname finfo startTemplate with
    | error e => simp [hs, bind, Except.bind] at h
    | ok start =>
      cases hw : p.writeStart (overrideNamespace p xmlname start) with
      | error e => simp [hs, hw, bind, Except.bind] at h
      | ok p1 =>
        cases hm : marshalStruct fields p1 with
        | error e => simp [hs, hw, hm, bind, Except.bind] at h
        | ok p2 =>
          simp only [hs, hw, hm, bind, Except.bind] at h
          obtain ⟨f, hf⟩ := marshalStruct_wrote fields p1 p2 hm
          exact ⟨_, (wrote_element hw hf h).2⟩
  | string s =>
    simp only [marshalKind, marshalSimple] at h
    obtain ⟨start, _, hw⟩ := wrote_simple h
    exact ⟨_, hw⟩
  | int i =>
    simp only [marshalKind, marshalSimple] at h
    obtain ⟨start, _, hw⟩ := wrote_simple h
    exact ⟨_, hw⟩
  | bool b =>
    simp only [marshalKind, marshalSimple] at h
    obtain ⟨start, _, hw⟩ := wrote_simple h
    exact ⟨_, hw⟩
  | map typ entries =>
    simp only [marshalKind, marshalSimple] at h
    cases hs : startElementFor typ none finfo startTemplate with
    | error e => simp [hs, bind, Except.bind] at h
    | ok start =>
      cases hw : p.writeStart start with
      | error e => simp [hs, hw, bind, Except.bind] at h
      | ok p1 => simp [hs, hw, bind, Except.bind] at h
theorem marshalElems_wrote (elems : List Value) (finfo : Option fieldInfo)
    (startTemplate : Option StartElement) (p p' : printer)
    (h : marshalElems elems finfo startTemplate p = .ok p') : ∃ f, Wrote p p' f := by
  cases elems with
  | nil =>
    simp only [marshalElems] at h
    cases h
    exact ⟨[], Wrote.refl p⟩
  | cons v rest =>
    simp only [marshalElems] at h
    cases hg : marshalGuard v finfo startTemplate p (marshalKind v finfo startTemplate p) with
    | error e => simp [hg, bind, Except.bind] at h
    | ok p1 =>
      simp only [hg, bind, Except.bind] at h
      obtain ⟨g, hg2⟩ := marshalElems_wrote rest finfo startTemplate p1 p' h
      rcases marshalGuard_ok hg with h1 | h1
      · subst h1; exact ⟨g, hg2⟩
      · obtain ⟨f, hf⟩ := marshalKind_wrote v finfo startTemplate p p1 h1
        exact ⟨f ++ g, hf.trans hg2⟩
theorem marshalStruct_wrote (fields : List (fieldInfo × Value)) (p p' : printer)
    (h : marshalStruct fields p = .ok p') : ∃ f, Wrote p p' f := by
  cases fields with
  | nil =>
    simp only [marshalStruct] at h
    cases h
    exact ⟨[], Wrote.refl p⟩
  | cons fv rest =>
    obtain ⟨fi, vf⟩ := fv
    simp only [marshalStruct] at h
    cases hg : marshalGuard vf (some fi) none p (marshalKind vf (some fi) none p) with
    | error e => simp [hg, bind, Except.bind] at h
    | ok p1 =>
      simp only [hg, bind, Except.bind] at h
      obtain ⟨g, hg2⟩ := marshalStruct_wrote rest p1 p' h
      rcases marshalGuard_ok hg with h1 | h1
      · subst h1; exact ⟨g, hg2⟩
      · obtain ⟨f, hf⟩ := marshalKind_wrote vf (some fi) none p p1 h1
        exact ⟨f ++ g, hf.trans hg2⟩
end

end xml

namespace gosoap

open xml

theorem header_wrote (p : printer) :
    marshalKind (nameValue ⟨"", ""⟩) (some headerInfo) none p =
      .ok ⟨p.out ++ headerNode.tokens, p.tags⟩ := by
  simp [nameValue, headerInfo, marshalKind, marshalStruct, marshalGuard, marshalSimple,
    startElementFor, overrideNamespace, printer.writeStart, printer.writeEnd,
    printer.EscapeString, isEmptyValue, Value.typ, headerNode, Node.tokens, forestTokens,
    bind, Except.bind]

theorem MarshalXML_eq (c : process) (e : printer) (s : StartElement) :
    c.MarshalXML e s =
      (marshalKind c.Request.Params (some dataInfo) none (openBody e)).map (closeEnvelope e) := by
  cases h : marshalKind c.Request.Params (some dataInfo) none (openBody e) with
  | error err =>
    simp [process.MarshalXML, EncodeElement, marshalValue, baseContent, bodyValue, start,
      marshalKind, marshalStruct, marshalGuard, startElementFor, overrideNamespace,
      printer.writeStart, isEmptyValue, bind, Except.bind, Except.map, dataInfo, bodyInfo,
      headerInfo] at h ⊢
    simp [openBody, start, dataInfo] at h
    simp [h]
  | ok p3 =>
    obtain ⟨f, ht, ho⟩ := marshalKind_wrote _ _ _ _ _ h
    simp only [openBody] at ht
    simp [process.MarshalXML, EncodeElement, marshalValue, baseContent, bodyValue, start,
      marshalKind, marshalStruct, marshalGuard, startElementFor, overrideNamespace,
      printer.writeStart, isEmptyValue, bind, Except.bind, Except.map, dataInfo, bodyInfo,
      headerInfo] at h ⊢
    simp [openBody, start, dataInfo] at h
    simp [h, printer.writeEnd, ht, marshalSimple, printer.EscapeString, Value.typ, nameValue,
      closeEnvelope, headerNode, Node.tokens, forestTokens]

end gosoap

namespace xml

mutual
theorem parseAux_tokens (n : Node) (rest : List Token) (stack : List (StartElement × List Node))
    (acc : List Node) : parseAux (n.tokens ++ rest) stack acc = parseAux rest stack (n :: acc) := by
  cases n with
  | text s => simp [Node.tokens, parseAux]
  | element start children =>
    have e1 : (Node.element start children).tokens ++ rest =
        Token.StartElement start ::
          (forestTokens children ++ (Token.EndElement start.Name :: rest)) := by
      simp [Node.tokens]
    rw [e1]
    simp only [parseAux]
    rw [parseAux_forest children _ _ _]
    simp [parseAux]
theorem parseAux_forest (f : List Node) (rest : List Token)
    (stack : List (StartElement × List Node)) (acc : List Node) :
    parseAux (forestTokens f ++ rest) stack acc = parseAux rest stack (f.reverse ++ acc) := by
  cases f with
  | nil => simp [forestTokens]
  | cons n f =>
    simp only [forestTokens, List.append_assoc]
    rw [parseAux_tokens n _ _ _, parseAux_forest f _ _ _]
    simp
end

/-- Reading back the tokens of a sequence of nodes gives the nodes. -/
theorem parse_forestTokens (f : List Node) : parse (forestTokens f) = some f := by
  have h := parseAux_forest f [] [] []
  simp only [List.append_nil] at h
  simp [parse, h, parseAux]

/-- A struct is written as one element: its start tag, what `marshalStruct` writes for
the fields, its end tag. -/
theorem marshalKind_struct {typ : rtype} {xmlname : Option (fieldInfo × Name)}
    {fields : List (fieldInfo × Value)} {finfo : Option fieldInfo}
    {startTemplate : Option StartElement} {p p' : printer}
    (h : marshalKind (.struct typ xmlname fields) finfo startTemplate p = .ok p') :
    ∃ start p1 p2 f, startElementFor typ xmlname finfo startTemplate = .ok start ∧
      marshalStruct fields p1 = .ok p2 ∧ Wrote p1 p2 f ∧
      Wrote p p' [Node.element (overrideNamespace p xmlname start).written f] := by
  simp only [marshalKind] at h
  cases hs : startElementFor typ xmlname finfo startTemplate with
  | error e => simp [hs, bind, Except.bind] at h
  | ok start =>
    cases hw : p.writeStart (overrideNamespace p xmlname start) with
    | error e => simp [hs, hw, bind, Except.bind] at h
    | ok p1 =>
      cases hm : marshalStruct fields p1 with
      | error e => simp [hs, hw, hm, bind, Except.bind] at h
      | ok p2 =>
        simp only [hs, hw, hm, bind, Except.bind] at h
        obtain ⟨f, hf⟩ := marshalStruct_wrote fields p1 p2 hm
        exact ⟨start, p1, p2, f, rfl, hm, hf, (wrote_element hw hf h).2⟩

/-- A map is not encoded: `marshalSimple` has no case for it. -/
theorem marshalKind_map (typ : rtype) (entries : List (String × String))
    (finfo : Option fieldInfo) (startTemplate : Option StartElement) (p : printer) :
    ∃ err, marshalKind (.map typ entries) finfo startTemplate p = .error err := by
  simp only [marshalKind, marshalSimple]
  cases hs : startElementFor typ none finfo startTemplate with
  | error e => exact ⟨e, by simp [bind, Except.bind]⟩
  | ok start =>
    cases hw : p.writeStart start with
    | error e => exact ⟨e, by simp [hw, bind, Except.bind]⟩
    | ok p1 => exact ⟨_, by simp [hw, bind, Except.bind]; rfl⟩

/-- A value that is a struct or of a basic kind behind pointers and interfaces is
written as exactly one element. -/
theorem marshalKind_single : ∀ (val : Value) (finfo : Option fieldInfo)
    (startTemplate : Option StartElement) (p p' : printer), val.isElementKind = true →
    marshalKind val finfo startTemplate p = .ok p' →
    ∃ st ch, Wrote p p' [Node.element st ch]
  | .nil, _, _, _, _, hk, _ => by simp [Value.isElementKind] at hk
  | .slice _, _, _, _, _, hk, _ => by simp [Value.isElementKind] at hk
  | .ptr elem, finfo, startTemplate, p, p', hk, h => by
    simp only [marshalKind] at h
    exact marshalKind_single elem finfo startTemplate p p' (by simpa [Value.isElementKind] using hk) h
  | .struct _ _ _, _, _, _, _, _, h => by
    obtain ⟨start, p1, p2, f, _, _, _, hw⟩ := marshalKind_struct h
    exact ⟨_, _, hw⟩
  | .map typ entries, finfo, startTemplate, p, _, _, h => by
    obtain ⟨err, he⟩ := marshalKind_map typ entries finfo startTemplate p
    rw [he] at h
    cases h
  | .string _, _, _, _, _, _, h => by
    simp only [marshalKind, marshalSimple] at h
    obtain ⟨start, _, hw⟩ := wrote_simple h
    exact ⟨_, _, hw⟩
  | .int _, _, _, _, _, _, h => by
    simp only [marshalKind, marshalSimple] at h
    obtain ⟨start, _, hw⟩ := wrote_simple h
    exact ⟨_, _, hw⟩
  | .bool _, _, _, _, _, _, h => by
    simp only [marshalKind, marshalSimple] at h
    obtain ⟨start, _, hw⟩ := wrote_simple h
    exact ⟨_, _, hw⟩

/-- The nodes written between two printer states are determined by the states. -/
theorem Wrote.unique {p p' : printer} {f g : List Node} (h1 : Wrote p p' f)
    (h2 : Wrote p p' g) : f = g := by
  have h := h1.2.symm.trans h2.2
  have h3 := congrArg parse (List.append_cancel_left h)
  rw [parse_forestTokens, parse_forestTokens] at h3
  exact Option.some.inj h3

end xml

namespace gosoap

open xml

/-- Shape of every successfully encoded envelope: the tokens of one `soap:Envelope`
element whose children are `soap:Body`, holding what `marshalValue` wrote for the
params, and the header. -/
theorem MarshalXML_shape {c : process} {e : printer} {s : StartElement} {e' : printer}
    (h : c.MarshalXML e s = .ok e') :
    ∃ p3 kids, marshalKind c.Request.Params (some dataInfo) none (openBody e) = .ok p3 ∧
      Wrote (openBody e) p3 kids ∧ e'.tags = e.tags ∧
      e'.out = e.out ++
        (Node.element start [Node.element ⟨⟨"", "soap:Body"⟩, []⟩ kids, headerNode]).tokens := by
  rw [MarshalXML_eq] at h
  cases hk : marshalKind c.Request.Params (some dataInfo) none (openBody e) with
  | error err => simp [hk, Except.map] at h
  | ok p3 =>
    simp only [hk, Except.map, Except.ok.injEq] at h
    obtain ⟨kids, hw⟩ := marshalKind_wrote _ _ _ _ _ hk
    refine ⟨p3, kids, rfl, hw, ?_, ?_⟩
    · rw [← h]; rfl
    · rw [← h]
      simp [closeEnvelope, hw.2, openBody, Node.tokens, forestTokens, headerNode, start]

/-- C1: whenever `process.MarshalXML` succeeds, whatever the start element `s` passed to
it, the operation name and the params, what it wrote reads back as one root element
named `soap:Envelope` whose attributes are exactly `xmlns:xsi`, `xmlns:xsd` and
`xmlns:soap` with the three fixed URIs, in that order. -/
theorem MarshalXML_root_is_envelope (c : process) (e : printer) (s : StartElement)
    (e' : printer) (h : c.MarshalXML e s = .ok e') :
    ∃ toks children, e'.out = e.out ++ toks ∧
      parse toks = some [Node.element
        { Name := ⟨"", "soap:Envelope"⟩,
          Attr := [ ⟨⟨"", "xmlns:xsi"⟩, "http://www.w3.org/2001/XMLSchema-instance"⟩,
                    ⟨⟨"", "xmlns:xsd"⟩, "http://www.w3.org/2001/XMLSchema"⟩,
                    ⟨⟨"", "xmlns:soap"⟩, "http://schemas.xmlsoap.org/soap/envelope/"⟩ ] }
        children] := by
  obtain ⟨p3, kids, _, _, _, ho⟩ := MarshalXML_shape h
  refine ⟨_, [Node.element ⟨⟨"", "soap:Body"⟩, []⟩ kids, headerNode], ho, ?_⟩
  rw [← forestTokens_singleton, parse_forestTokens]
  rfl

/-- Witness of C1: the envelope of `Call("CapitalCity", CapitalCity{"GB"})` on a fresh
encoder. -/
theorem MarshalXML_root_is_envelope_witness :
    capitalCityCall.MarshalXML ⟨[], []⟩ ⟨⟨"", "process"⟩, []⟩
        = .ok ⟨envelopeTokens [capitalCityNode], []⟩ ∧
      ∃ toks children, envelopeTokens [capitalCityNode] = [] ++ toks ∧
        parse toks = some [Node.element
          { Name := ⟨"", "soap:Envelope"⟩,
            Attr := [ ⟨⟨"", "xmlns:xsi"⟩, "http://www.w3.org/2001/XMLSchema-instance"⟩,
                      ⟨⟨"", "xmlns:xsd"⟩, "http://www.w3.org/2001/XMLSchema"⟩,
                      ⟨⟨"", "xmlns:soap"⟩, "http://schemas.xmlsoap.org/soap/envelope/"⟩ ] }
          children] :=
  ⟨rfl, MarshalXML_root_is_envelope capitalCityCall ⟨[], []⟩ ⟨⟨"", "process"⟩, []⟩
    ⟨envelopeTokens [capitalCityNode], []⟩ rfl⟩

/-- C10 as stated fails: in the envelope of `Call("Whois", Whois{"google.com"})` the
root has the two children `soap:Body` and `soap:Header`, in this order, and the
`soap:Header` has no child: `Space` and `Local` are not written. -/
theorem header_children_counterexample :
    (encoded whoisCall).bind envelopeChildren =
      some [ (some ⟨"", "soap:Body"⟩, [some ⟨"", "Data"⟩]), (some ⟨"", "soap:Header"⟩, []) ] ∧
    (encoded whoisCall).bind envelopeChildren ≠
      some [ (some ⟨"", "soap:Body"⟩, [some ⟨"", "Data"⟩]),
             (some ⟨"", "soap:Header"⟩, [some ⟨"", "Space"⟩, some ⟨"", "Local"⟩]) ] := by
  decide

/-- C10, amended: whenever `process.MarshalXML` succeeds, the `soap:Envelope` has exactly
two children, in this order: `soap:Body`, then a `soap:Header` element that is never
omitted and has no attribute and no child (a value of type `xml.Name` is written without
its fields). -/
theorem MarshalXML_body_then_header (c : process) (e : printer) (s : StartElement)
    (e' : printer) (h : c.MarshalXML e s = .ok e') :
    ∃ toks attrs bodyContent, e'.out = e.out ++ toks ∧
      parse toks = some [Node.element ⟨⟨"", "soap:Envelope"⟩, attrs⟩
        [ Node.element ⟨⟨"", "soap:Body"⟩, []⟩ bodyContent,
          Node.element ⟨⟨"", "soap:Header"⟩, []⟩ [] ]] := by
  obtain ⟨p3, kids, _, _, _, ho⟩ := MarshalXML_shape h
  refine ⟨_, start.Attr, kids, ho, ?_⟩
  rw [← forestTokens_singleton, parse_forestTokens]
  rfl

/-- Witness of C10, amended: the envelope of `Call("Whois", Whois{"google.com"})`. -/
theorem MarshalXML_body_then_header_witness :
    whoisCall.MarshalXML ⟨[], []⟩ ⟨⟨"", "process"⟩, []⟩
        = .ok ⟨envelopeTokens [whoisNode], []⟩ ∧
      ∃ toks attrs bodyContent, envelopeTokens [whoisNode] = [] ++ toks ∧
        parse toks = some [Node.element ⟨⟨"", "soap:Envelope"⟩, attrs⟩
          [ Node.element ⟨⟨"", "soap:Body"⟩, []⟩ bodyContent,
            Node.element ⟨⟨"", "soap:Header"⟩, []⟩ [] ]] :=
  ⟨rfl, MarshalXML_body_then_header whoisCall ⟨[], []⟩ ⟨⟨"", "process"⟩, []⟩
    ⟨envelopeTokens [whoisNode], []⟩ rfl⟩

/-- C2 as stated fails: with nil params (`Call("Whois", nil)`) the envelope is encoded
and its `soap:Body` has no child; with a slice of two strings it has two. -/
theorem body_child_count_counterexample :
    ((encoded ⟨⟨"Whois", Value.nil⟩, ""⟩).bind bodyChildren).map List.length = some 0 ∧
    ((encoded ⟨⟨"Whois", Value.slice [.string "a", .string "b"]⟩, ""⟩).bind bodyChildren).map
      List.length = some 2 := by
  decide

/-- C2, amended: whenever `process.MarshalXML` succeeds, the `soap:Envelope` contains
exactly one `soap:Body` element, its first child; the Body wraps exactly one child
element when the params are a struct or a basic value (possibly behind pointers or
interfaces), and no child when the params are nil. -/
theorem MarshalXML_one_body (c : process) (e : printer) (s : StartElement)
    (e' : printer) (h : c.MarshalXML e s = .ok e') :
    ∃ toks bodyContent, e'.out = e.out ++ toks ∧
      parse toks = some [Node.element start
        [Node.element ⟨⟨"", "soap:Body"⟩, []⟩ bodyContent, headerNode]] ∧
      bodyChildren toks = some bodyContent ∧
      (c.Request.Params.isElementKind = true → ∃ st ch, bodyContent = [Node.element st ch]) ∧
      (c.Request.Params = Value.nil → bodyContent = []) := by
  obtain ⟨p3, kids, hk, hw, _, ho⟩ := MarshalXML_shape h
  have hp : parse (Node.element start
      [Node.element ⟨⟨"", "soap:Body"⟩, []⟩ kids, headerNode]).tokens =
      some [Node.element start [Node.element ⟨⟨"", "soap:Body"⟩, []⟩ kids, headerNode]] := by
    rw [← forestTokens_singleton, parse_forestTokens]
  refine ⟨_, kids, ho, hp, ?_, ?_, ?_⟩
  · simp only [bodyChildren, hp]
    simp [headerNode, Node.name?, Node.children, List.filter]
  · intro hkind
    obtain ⟨st, ch, hw2⟩ := marshalKind_single _ _ _ _ _ hkind hk
    exact ⟨st, ch, hw.unique hw2⟩
  · intro hnil
    rw [hnil] at hk
    simp only [marshalKind, Except.ok.injEq] at hk
    rw [← hk] at hw
    exact hw.unique (Wrote.refl _)

/-- Witness of C2, amended: the envelope of `Call("CapitalCity", CapitalCity{"GB"})`. -/
theorem MarshalXML_one_body_witness :
    capitalCityCall.MarshalXML ⟨[], []⟩ ⟨⟨"", "process"⟩, []⟩
        = .ok ⟨envelopeTokens [capitalCityNode], []⟩ ∧
      ∃ toks bodyContent, envelopeTokens [capitalCityNode] = [] ++ toks ∧
        parse toks = some [Node.element start
          [Node.element ⟨⟨"", "soap:Body"⟩, []⟩ bodyContent, headerNode]] ∧
        bodyChildren toks = some bodyContent ∧
        ∃ st ch, bodyContent = [Node.element st ch] := by
  obtain ⟨toks, bodyContent, h1, h2, h3, h4, _⟩ :=
    MarshalXML_one_body capitalCityCall ⟨[], []⟩ ⟨⟨"", "process"⟩, []⟩
      ⟨envelopeTokens [capitalCityNode], []⟩ rfl
  exact ⟨rfl, toks, bodyContent, h1, h2, h3, h4 rfl⟩

end gosoap

namespace xml

theorem startElementFor_eq (typ : rtype) (xmlname : Option (fieldInfo × Name))
    (finfo : Option fieldInfo) :
    startElementFor typ xmlname finfo none =
      (match elementName typ xmlname finfo with
        | some name => .ok ⟨name, []⟩
        | none => .error (.UnsupportedTypeError typ)) := by
  rcases xmlname with _ | ⟨xi, v⟩ <;> rcases finfo with _ | fi
  · by_cases h3 : typeName typ = ""
    · simp [startElementFor, elementName, h3]
    · simp [startElementFor, elementName, h3]
  · by_cases h2 : fi.name = ""
    · by_cases h3 : typeName typ = ""
      · simp [startElementFor, elementName, h2, h3]
      · simp [startElementFor, elementName, h2, h3]
    · simp [startElementFor, elementName, h2]
  · by_cases h0 : xi.name = ""
    · by_cases h1 : v.Local = ""
      · by_cases h3 : typeName typ = ""
        · simp [startElementFor, elementName, h0, h1, h3]
        · simp [startElementFor, elementName, h0, h1, h3]
      · simp [startElementFor, elementName, h0, h1]
    · simp [startElementFor, elementName, h0]
  · by_cases h0 : xi.name = ""
    · by_cases h1 : v.Local = ""
      · by_cases h2 : fi.name = ""
        · by_cases h3 : typeName typ = ""
          · simp [startElementFor, elementName, h0, h1, h2, h3]
          · simp [startElementFor, elementName, h0, h1, h2, h3]
        · simp [startElementFor, elementName, h0, h1, h2]
      · simp [startElementFor, elementName, h0, h1]
    · simp [startElementFor, elementName, h0]

theorem elementName_local {typ : rtype} {xmlname : Option (fieldInfo × Name)}
    {finfo : Option fieldInfo} {name : Name} (h : elementName typ xmlname finfo = some name) :
    name.Local ≠ "" := by
  have key : ∀ (fo : Option fieldInfo) (n : Name), elementName typ none fo = some n →
      n.Local ≠ "" := by
    intro fo n hn
    rcases fo with _ | fi
    · by_cases h3 : typeName typ = ""
      · simp [elementName, h3] at hn
      · simp only [elementName, h3, if_false, Option.some.injEq] at hn
        subst hn
        exact h3
    · by_cases h2 : fi.name = ""
      · by_cases h3 : typeName typ = ""
        · simp [elementName, h2, h3] at hn
        · simp only [elementName, h2, h3, if_false, ne_eq, not_true_eq_false,
            Option.some.injEq] at hn
          subst hn
          exact h3
      · simp only [elementName, h2, ne_eq, not_false_eq_true, if_true,
          Option.some.injEq] at hn
        subst hn
        exact h2
  rcases xmlname with _ | ⟨xi, v⟩
  · exact key finfo name h
  · by_cases h0 : xi.name = ""
    · by_cases h1 : v.Local = ""
      · have : elementName typ (some (xi, v)) finfo = elementName typ none finfo := by
          simp [elementName, h0, h1]
        exact key finfo name (this ▸ h)
      · simp only [elementName, h0, h1, ne_eq, not_true_eq_false, not_false_eq_true, if_true,
          if_false, Option.some.injEq] at h
        subst h
        exact h1
    · simp only [elementName, h0, ne_eq, not_false_eq_true, if_true, Option.some.injEq] at h
      subst h
      exact h0

theorem overrideNamespace_eq (p : printer) (xmlname : Option (fieldInfo × Name)) (name : Name) :
    overrideNamespace p xmlname ⟨name, []⟩ =
      ⟨name, emptyNamespaceAttr p.tags.head? xmlname name⟩ := by
  unfold overrideNamespace emptyNamespaceAttr
  rcases xmlname with _ | ⟨xi, v⟩
  · rfl
  · rcases hp : p.tags with _ | ⟨top, rest⟩
    · simp
    · simp only [List.head?_cons]
      split <;> simp

theorem emptyNamespaceAttr_local (enclosing : Option Name)
    (xmlname : Option (fieldInfo × Name)) (name : Name) :
    ∀ a ∈ emptyNamespaceAttr enclosing xmlname name, ¬a.Name.Local = "" := by
  intro a ha
  unfold emptyNamespaceAttr at ha
  rcases xmlname with _ | ⟨xi, v⟩
  · simp at ha
  · rcases enclosing with _ | top
    · simp at ha
    · simp only at ha
      split at ha
      · simp only [List.mem_singleton] at ha
        subst ha
        decide
      · simp at ha

theorem printer.wrote_nil (p : printer) : p.wrote [] = p := by
  simp [printer.wrote, forestTokens]

theorem marshalGuard_none (val : Value) (finfo : Option fieldInfo) (p : printer)
    (rest : Except MarshalError printer) :
    marshalGuard val finfo none p rest =
      (if (match finfo with | some fi => fi.omitEmpty | none => false) && isEmptyValue val
        then .ok p else rest) := by
  simp [marshalGuard]

/-- Writing a value of a basic kind gives the element of `textElement`. -/
theorem marshal_text (typ : rtype) (finfo : Option fieldInfo) (text : String) (p : printer) :
    (do
      let start ← startElementFor typ none finfo none
      let p ← p.writeStart start
      let s ← (Except.ok text : Except MarshalError String)
      (p.EscapeString s).writeEnd start.Name) =
      (textElement typ finfo text).map p.wrote := by
  rw [startElementFor_eq]
  unfold textElement
  cases hn : elementName typ none finfo with
  | none => simp [bind, Except.bind, Except.map]
  | some name =>
    have hl := elementName_local hn
    simp [bind, Except.bind, Except.map, printer.writeStart, printer.writeEnd,
      printer.EscapeString, printer.wrote, hl, forestTokens, Node.tokens]

mutual
theorem marshalKind_nodes (val : Value) (finfo : Option fieldInfo) (p : printer) :
    marshalKind val finfo none p = (valueNodes val finfo p.tags.head?).map p.wrote := by
  cases val with
  | nil => simp [marshalKind, valueNodes, Except.map, printer.wrote_nil]
  | ptr elem =>
    simp only [marshalKind, valueNodes]
    exact marshalKind_nodes elem finfo p
  | slice elems =>
    simp only [marshalKind, valueNodes]
    exact marshalElems_nodes elems finfo p
  | struct typ xmlname fields =>
    simp only [marshalKind, valueNodes]
    rw [startElementFor_eq]
    cases hn : elementName typ xmlname finfo with
    | none => simp [bind, Except.bind, Except.map]
    | some name =>
      have hl := elementName_local hn
      have hw : p.writeStart (overrideNamespace p xmlname ⟨name, []⟩) =
          .ok ⟨p.out ++ [Token.StartElement ⟨name, emptyNamespaceAttr p.tags.head? xmlname name⟩],
            name :: p.tags⟩ := by
        rw [overrideNamespace_eq]
        have := emptyNamespaceAttr_local p.tags.head? xmlname name
        simp [printer.writeStart, hl]
        exact this
      simp only [bind, Except.bind, hw]
      rw [marshalStruct_nodes fields _]
      simp only [List.head?_cons]
      cases hf : fieldsNodes fields name with
      | error err => simp [Except.map]
      | ok children =>
        simp [Except.map, printer.wrote, printer.writeEnd, hl, forestTokens, Node.tokens]
  | string s =>
    simp only [marshalKind, marshalSimple, valueNodes, Value.typ]
    exact marshal_text _ finfo s p
  | int i =>
    simp only [marshalKind, marshalSimple, valueNodes, Value.typ]
    exact marshal_text _ finfo _ p
  | bool b =>
    simp only [marshalKind, marshalSimple, valueNodes, Value.typ]
    exact marshal_text _ finfo _ p
  | map typ entries =>
    simp only [marshalKind, marshalSimple, valueNodes]
    rw [startElementFor_eq]
    cases hn : elementName typ none finfo with
    | none => simp [bind, Except.bind, Except.map]
    | some name =>
      have hl := elementName_local hn
      simp [bind, Except.bind, Except.map, printer.writeStart, hl]
theorem marshalElems_nodes (elems : List Value) (finfo : Option fieldInfo) (p : printer) :
    marshalElems elems finfo none p = (itemNodes elems finfo p.tags.head?).map p.wrote := by
  cases elems with
  | nil => simp [marshalElems, itemNodes, Except.map, printer.wrote_nil]
  | cons v rest =>
    simp only [marshalElems, itemNodes, marshalGuard_none]
    by_cases ho : ((match finfo with | some fi => fi.omitEmpty | none => false) &&
        isEmptyValue v) = true
    · simp only [ho, if_true, bind, Except.bind]
      rw [marshalElems_nodes rest finfo p]
      cases itemNodes rest finfo p.tags.head? <;> simp [Except.map]
    · simp only [ho, Bool.false_eq_true, if_false, bind, Except.bind]
      rw [marshalKind_nodes v finfo p]
      cases hv : valueNodes v finfo p.tags.head? with
      | error err => simp [Except.map]
      | ok first =>
        simp only [Except.map]
        have e1 : (p.wrote first).tags = p.tags := rfl
        rw [marshalElems_nodes rest finfo _, e1]
        cases hi : itemNodes rest finfo p.tags.head? <;>
          simp [Except.map, printer.wrote, forestTokens_append]
theorem marshalStruct_nodes (fields : List (fieldInfo × Value)) (p : printer) :
    marshalStruct fields p =
      (match p.tags.head? with
        | some parent => (fieldsNodes fields parent).map p.wrote
        | none => marshalStruct fields p) := by
  cases hp : p.tags.head? with
  | none => rfl
  | some parent =>
    cases fields with
    | nil => simp [marshalStruct, fieldsNodes, Except.map, printer.wrote_nil]
    | cons fv rest =>
      obtain ⟨fi, vf⟩ := fv
      simp only [marshalStruct, fieldsNodes, marshalGuard_none]
      have hrest : ∀ q : printer, q.tags = p.tags →
          marshalStruct rest q = (fieldsNodes rest parent).map q.wrote := by
        intro q hq
        have := marshalStruct_nodes rest q
        rw [hq, hp] at this
        exact this
      by_cases ho : (fi.omitEmpty && isEmptyValue vf) = true
      · simp only [ho, if_true, bind, Except.bind]
        rw [hrest p rfl]
        cases fieldsNodes rest parent <;> simp [Except.map]
      · simp only [ho, Bool.false_eq_true, if_false, bind, Except.bind]
        rw [marshalKind_nodes vf (some fi) p, hp]
        cases hv : valueNodes vf (some fi) (some parent) with
        | error err => simp [Except.map]
        | ok first =>
          simp only [Except.map]
          rw [hrest (p.wrote first) rfl]
          cases fieldsNodes rest parent <;>
            simp [Except.map, printer.wrote, forestTokens_append]
end

end xml

namespace gosoap

open xml

/-- The envelope written by `process.MarshalXML` is the document whose Body holds the
nodes of the params. -/
theorem MarshalXML_nodes (c : process) (e : printer) (s : StartElement) :
    c.MarshalXML e s =
      (valueNodes c.Request.Params (some dataInfo) (some ⟨"", "soap:Body"⟩)).map
        (fun content => ⟨e.out ++ envelopeTokens content, e.tags⟩) := by
  rw [MarshalXML_eq, marshalKind_nodes]
  have ht : (openBody e).tags.head? = some ⟨"", "soap:Body"⟩ := rfl
  rw [ht]
  cases valueNodes c.Request.Params (some dataInfo) (some ⟨"", "soap:Body"⟩) with
  | error err => rfl
  | ok content =>
    simp [Except.map, closeEnvelope, printer.wrote, openBody, envelopeTokens, Node.tokens,
      forestTokens, headerNode, start]

theorem fieldsNodes_text (fields : List (fieldInfo × Value)) (parent : Name)
    (hf : ∀ f ∈ fields, f.1.name ≠ "" ∧ (basicText f.2).isSome = true) :
    fieldsNodes fields parent = .ok (textFieldNodes fields) := by
  induction fields with
  | nil => simp [fieldsNodes, textFieldNodes]
  | cons f rest ih =>
    obtain ⟨fi, v⟩ := f
    obtain ⟨hn, hb⟩ := hf (fi, v) (by simp)
    have hrest := ih (fun f hm => hf f (by simp [hm]))
    simp only [fieldsNodes, hrest]
    by_cases ho : (fi.omitEmpty && isEmptyValue v) = true
    · have e1 : textFieldNodes ((fi, v) :: rest) = textFieldNodes rest := by
        unfold textFieldNodes
        rw [List.filter_cons_of_neg (by simp [ho])]
      simp [ho, e1]
    · have ho2 : (fi.omitEmpty && isEmptyValue v) = false := by simpa using ho
      have e1 : textFieldNodes ((fi, v) :: rest) =
          Node.element ⟨⟨fi.xmlns, fi.name⟩, []⟩ [Node.text ((basicText v).getD "")] ::
            textFieldNodes rest := by
        unfold textFieldNodes
        rw [List.filter_cons_of_pos (by simp [ho2])]
        rfl
      have hv : valueNodes v (some fi) (some parent) =
          .ok [Node.element ⟨⟨fi.xmlns, fi.name⟩, []⟩ [Node.text ((basicText v).getD "")]] := by
        cases v with
        | string s => simp [valueNodes, textElement, elementName, hn, basicText]
        | int i => simp [valueNodes, textElement, elementName, hn, basicText]
        | bool b => simp [valueNodes, textElement, elementName, hn, basicText]
        | nil => simp [basicText] at hb
        | map _ _ => simp [basicText] at hb
        | ptr _ => simp [basicText] at hb
        | slice _ => simp [basicText] at hb
        | struct _ _ _ => simp [basicText] at hb
      simp [ho2, hv, e1]

theorem text_element_bytes (n s : String) :
    render (Node.element ⟨⟨"", n⟩, []⟩ [Node.text s]).tokens =
      some ("<" ++ n ++ ">" ++ EscapeText s ++ "</" ++ n ++ ">") := by
  simp [render, Node.tokens, forestTokens, Token.bytes, attrsBytes, String.append_assoc]

/-- C3, the code at `Call("Whois", Whois{DomainName: "google.com"})`: the one child of
the Body is named `Data`, after the Go field that holds the params, not `Whois`; the Body
content is `<Data><DomainName>google.com</DomainName></Data>`; and what
`process.MarshalXML` returns does not depend on the operation name at all. -/
theorem whois_body_child_is_Data :
    ((encoded whoisCall).bind bodyChildren).map (List.map Node.name?)
        = some [some ⟨"", "Data"⟩] ∧
    ((encoded whoisCall).bind bodyChildren).map (List.map Node.name?)
        ≠ some [some ⟨"", whoisCall.Request.Method⟩] ∧
    bodyBytes whoisCall = some "<Data><DomainName>google.com</DomainName></Data>" ∧
    ∀ (m m' : String) (p : Value) (payload : String) (e : printer) (s : StartElement),
      process.MarshalXML ⟨⟨m, p⟩, payload⟩ e s = process.MarshalXML ⟨⟨m', p⟩, payload⟩ e s :=
  ⟨by decide, by decide, by decide, fun _ _ _ _ _ _ => rfl⟩

/-- C4, the code on a map: `process.MarshalXML` returns `UnsupportedTypeError` for every
map given as params, whatever its entries; no envelope is produced. -/
theorem MarshalXML_map_unsupported (m : String) (typ : rtype) (entries : List (String × String))
    (payload : String) (e : printer) (s : StartElement) :
    process.MarshalXML ⟨⟨m, .map typ entries⟩, payload⟩ e s =
      .error (.UnsupportedTypeError typ) := by
  rw [MarshalXML_eq]
  simp [marshalKind, marshalSimple, startElementFor, dataInfo, printer.writeStart, bind,
    Except.bind, Except.map]

/-- C5 as stated fails: a string field holding the character U+0001 is written as
U+FFFD, not as the field value; a field holding a nil pointer gives no child element; a
field tagged `item` holding a `CapitalCity` value gives a child named `CapitalCity`, not
`item`. -/
theorem tagged_struct_counterexample :
    bodyBytes ⟨⟨"T", oneField "a" (.string (String.singleton (Char.ofNat 1)))⟩, ""⟩ =
      some ("<T><a>" ++ String.singleton (Char.ofNat 0xFFFD) ++ "</a></T>") ∧
    bodyBytes ⟨⟨"T", oneField "p" .nil⟩, ""⟩ = some "<T></T>" ∧
    bodyBytes ⟨⟨"T", oneField "item" (.ptr (CapitalCity "GB"))⟩, ""⟩ =
      some "<T><CapitalCity><sCountryISOCode>GB</sCountryISOCode></CapitalCity></T>" := by
  decide

/-- C5, amended: for params that are a struct with an `XMLName` tag, `process.MarshalXML`
writes in the Body one element named by that tag whose children are the nodes of the
struct's fields, field by field in declaration order (`fieldsNodes`), and fails exactly
when a field cannot be written; when all fields are tagged and hold strings, integers or
booleans the children are one element per field, named by the field's tag and holding
the text of the value (a field under `omitempty` with an empty value is left out); the
text of an element is written escaped by `EscapeText`. -/
theorem MarshalXML_tagged_struct (m : String) (typ : rtype) (xi : fieldInfo) (v : Name)
    (fields : List (fieldInfo × Value)) (payload : String) (e : printer) (s : StartElement)
    (hx : xi.name ≠ "") :
    process.MarshalXML ⟨⟨m, .struct typ (some (xi, v)) fields⟩, payload⟩ e s =
      (fieldsNodes fields ⟨xi.xmlns, xi.name⟩).map (fun children =>
        ⟨e.out ++ envelopeTokens [Node.element ⟨⟨xi.xmlns, xi.name⟩, []⟩ children], e.tags⟩) ∧
    ((∀ f ∈ fields, f.1.name ≠ "" ∧ (basicText f.2).isSome = true) →
      fieldsNodes fields ⟨xi.xmlns, xi.name⟩ = .ok (textFieldNodes fields)) ∧
    (∀ n text : String, render (Node.element ⟨⟨"", n⟩, []⟩ [Node.text text]).tokens =
      some ("<" ++ n ++ ">" ++ EscapeText text ++ "</" ++ n ++ ">")) := by
  refine ⟨?_, fieldsNodes_text fields _, text_element_bytes⟩
  rw [MarshalXML_nodes]
  simp only [valueNodes, elementName, hx, ne_eq, not_false_eq_true, if_true]
  cases fieldsNodes fields ⟨xi.xmlns, xi.name⟩ with
  | error err => rfl
  | ok children => simp [Except.map, emptyNamespaceAttr, hx]

/-- Witness of C5, amended: `CapitalCity{SCountryISOCode: "GB"}`; the Body content is
exactly `<CapitalCity><sCountryISOCode>GB</sCountryISOCode></CapitalCity>`. -/
theorem MarshalXML_tagged_struct_witness :
    (⟨"CapitalCity", "", false⟩ : fieldInfo).name ≠ "" ∧
    capitalCityCall.MarshalXML ⟨[], []⟩ ⟨⟨"", "process"⟩, []⟩ =
      .ok ⟨[] ++ envelopeTokens [Node.element ⟨⟨"", "CapitalCity"⟩, []⟩
        [Node.element ⟨⟨"", "sCountryISOCode"⟩, []⟩ [Node.text "GB"]]], []⟩ ∧
    fieldsNodes [(⟨"sCountryISOCode", "", false⟩, .string "GB")] ⟨"", "CapitalCity"⟩ =
      .ok (textFieldNodes [(⟨"sCountryISOCode", "", false⟩, .string "GB")]) ∧
    render (Node.element ⟨⟨"", "sCountryISOCode"⟩, []⟩ [Node.text "GB"]).tokens =
      some ("<" ++ "sCountryISOCode" ++ ">" ++ EscapeText "GB" ++ "</" ++ "sCountryISOCode" ++ ">") ∧
    EscapeText "GB" = "GB" ∧
    bodyBytes capitalCityCall =
      some "<CapitalCity><sCountryISOCode>GB</sCountryISOCode></CapitalCity>" := by
  have h := MarshalXML_tagged_struct "CapitalCity" ⟨"CapitalCity", "gosoap.CapitalCity"⟩
    ⟨"CapitalCity", "", false⟩ ⟨"", ""⟩ [(⟨"sCountryISOCode", "", false⟩, .string "GB")] ""
    ⟨[], []⟩ ⟨⟨"", "process"⟩, []⟩ (by decide)
  exact ⟨by decide, h.1, h.2.1 (by decide), h.2.2 _ _, by decide, by decide⟩

/-- C6: over a WSDL document whose first service's first port's first address is `A` and
a well-formed WSDL source URL `W` (one with a scheme and a host), `getLocation` returns
`A` verbatim when `UseDefinitionURL` is true, and the scheme and host (with port) of `W`
combined with the path of `A` when it is false. -/
theorem getLocation_resolution (W A : String) (w a : URL) (addresses : List soapAddress)
    (ports : List wsdlPort) (services : List wsdlService)
    (hW : wellFormedURL W = some w) (hA : parseURL A = some a) :
    Client.getLocation ⟨W, true, some ⟨⟨⟨⟨A⟩ :: addresses⟩ :: ports⟩ :: services⟩⟩ = .ok A ∧
    Client.getLocation ⟨W, false, some ⟨⟨⟨⟨A⟩ :: addresses⟩ :: ports⟩ :: services⟩⟩ =
      .ok (w.Scheme ++ "://" ++ w.Host ++ a.Path) ∧
    w.Scheme ≠ "" ∧ w.Host ≠ "" := by
  have hwf : w.Scheme ≠ "" ∧ w.Host ≠ "" := by
    unfold wellFormedURL at hW
    cases hp : parseURL W with
    | none => simp [hp] at hW
    | some u =>
      simp only [hp] at hW
      split at hW
      · cases hW
      · rename_i hne
        cases hW
        exact ⟨fun h => hne (Or.inl h), fun h => hne (Or.inr h)⟩
  exact ⟨by simp [Client.getLocation, firstAddress, hW],
    by simp [Client.getLocation, firstAddress, hW, hA], hwf⟩

/-- Witness of C6: `A = http://a.example/svc`, `W = https://b.example:4330/svc?wsdl`. -/
theorem getLocation_resolution_witness :
    wellFormedURL "https://b.example:4330/svc?wsdl" =
      some ⟨"https", "b.example:4330", "/svc", "wsdl"⟩ ∧
    parseURL "http://a.example/svc" = some ⟨"http", "a.example", "/svc", ""⟩ ∧
    (Client.getLocation ⟨"https://b.example:4330/svc?wsdl", true,
        some ⟨[⟨[⟨[⟨"http://a.example/svc"⟩]⟩]⟩]⟩⟩ = .ok "http://a.example/svc" ∧
     Client.getLocation ⟨"https://b.example:4330/svc?wsdl", false,
        some ⟨[⟨[⟨[⟨"http://a.example/svc"⟩]⟩]⟩]⟩⟩ =
          .ok ("https" ++ "://" ++ "b.example:4330" ++ "/svc") ∧
     "https" ≠ "" ∧ "b.example:4330" ≠ "") ∧
    ("https" ++ "://" ++ "b.example:4330" ++ "/svc" : String) = "https://b.example:4330/svc" :=
  ⟨by decide, by decide,
    getLocation_resolution "https://b.example:4330/svc?wsdl" "http://a.example/svc"
      ⟨"https", "b.example:4330", "/svc", "wsdl"⟩ ⟨"http", "a.example", "/svc", ""⟩ [] [] []
      (by decide) (by decide),
    by decide⟩

/-- C7, the resolver of §4.2 at the two clients of `TestUseDefinitionURL`: with
`UseDefinitionURL = true` it returns the address
`http://demo.ilias.de/webservice/soap/server.php`, with `UseDefinitionURL = false` the
reconstructed `https://demo.ilias.de:4330/webservice/soap/server.php`; the test asserts
the two results the other way round. -/
theorem getLocation_test_clients :
    Client.getLocation ⟨"https://demo.ilias.de:4330/webservice/soap/server.php?wsdl", true,
        some (initDefinition "http://demo.ilias.de/webservice/soap/server.php")⟩ =
      .ok "http://demo.ilias.de/webservice/soap/server.php" ∧
    Client.getLocation ⟨"https://demo.ilias.de:4330/webservice/soap/server.php?wsdl", false,
        some (initDefinition "http://demo.ilias.de/webservice/soap/server.php")⟩ =
      .ok "https://demo.ilias.de:4330/webservice/soap/server.php" := by
  decide

/-- C8: on a fresh Client, `Call` with an empty operation name and an empty parameter
mapping returns the error `EmptyBodyError` and no result, without any HTTP request; and
`doRequest` on a process with an empty payload returns an error, whatever the URL. -/
theorem Call_empty_body (http : HttpClient) (parseWsdl : String → Option wsdlDefinitions)
    (typ : rtype) (req : Request) (url : String) :
    (Client.Call http parseWsdl ⟨"", false, none⟩ "" (.map typ [])).result =
      .error .EmptyBodyError ∧
    (Client.Call http parseWsdl ⟨"", false, none⟩ "" (.map typ [])).sent = [] ∧
    ∃ err, (process.doRequest http ⟨req, ""⟩ url).result = .error err := by
  refine ⟨by simp [Client.Call], by simp [Client.Call], ?_⟩
  unfold process.doRequest
  cases wellFormedURL url with
  | none => exact ⟨_, rfl⟩
  | some u => exact ⟨.EmptyBodyError, by simp⟩

/-- C9 as stated fails: after `SetWSDL` with a source that has no scheme and no host (the
empty source, or `://test.`), `Call("", {})` fails with `EmptyBodyError`, not with
`InvalidWsdlURLError`. -/
theorem Call_malformed_wsdl_counterexample :
    wellFormedURL "" = none ∧ wellFormedURL "://test." = none ∧
    (Client.Call (fun _ => none) (fun _ => none) (Client.SetWSDL ⟨"", false, none⟩ "") ""
        (.map ⟨"", "map[string]string"⟩ [])).result = .error .EmptyBodyError ∧
    (Client.Call (fun _ => none) (fun _ => none) (Client.SetWSDL ⟨"", false, none⟩ "://test.") ""
        (.map ⟨"", "map[string]string"⟩ [])).result = .error .EmptyBodyError ∧
    (Client.Call (fun _ => none) (fun _ => none) (Client.SetWSDL ⟨"", false, none⟩ "://test.") ""
        (.map ⟨"", "map[string]string"⟩ [])).result ≠ .error .InvalidWsdlURLError := by
  decide

/-- C9, amended: after the WSDL source of a Client is set to a malformed URL (one that
cannot be split or lacks a scheme or a host), every `Call` with a non-empty operation
name and non-empty params fails with `InvalidWsdlURLError`, and every `Call` with an
empty operation name or empty params with `EmptyBodyError`, in both cases without handing
any request to the HTTP collaborator; and `doRequest` on that URL fails with
`InvalidWsdlURLError`, again without any request. -/
theorem Call_malformed_wsdl (http : HttpClient) (parseWsdl : String → Option wsdlDefinitions)
    (c : Client) (wsdl : String) (m : String) (p : Value) (pr : process)
    (hw : wellFormedURL wsdl = none) :
    (m ≠ "" → paramsEmpty p = false →
      (Client.Call http parseWsdl (c.SetWSDL wsdl) m p).result = .error .InvalidWsdlURLError ∧
      (Client.Call http parseWsdl (c.SetWSDL wsdl) m p).sent = []) ∧
    (m = "" ∨ paramsEmpty p = true →
      (Client.Call http parseWsdl (c.SetWSDL wsdl) m p).result = .error .EmptyBodyError ∧
      (Client.Call http parseWsdl (c.SetWSDL wsdl) m p).sent = []) ∧
    (process.doRequest http pr wsdl).result = .error .InvalidWsdlURLError ∧
    (process.doRequest http pr wsdl).sent = [] := by
  refine ⟨?_, ?_, ?_, ?_⟩
  · intro hm hp
    simp [Client.Call, Client.SetWSDL, hw, hm, hp]
  · intro h
    simp [Client.Call, h]
  · simp [process.doRequest, hw]
  · simp [process.doRequest, hw]

/-- Witness of C9, amended: `SetWSDL("://test.")` followed by
`Call("checkVat", ReqParam{})`, and `doRequest("://test.")` (src/soap_test.go:150-155,
204-207); the sources `test.`, `/x`, the empty one and `://teste.` are malformed too. -/
theorem Call_malformed_wsdl_witness :
    wellFormedURL "://test." = none ∧
    ((Client.Call (fun _ => some "") (fun _ => none) (Client.SetWSDL ⟨"", false, none⟩ "://test.")
        "checkVat" (.struct ⟨"ReqParam", "gosoap.ReqParam"⟩ none
          [(⟨"VatNumber", "", false⟩, .string ""), (⟨"CountryCode", "", false⟩, .string "")])).result
        = .error .InvalidWsdlURLError ∧
     (Client.Call (fun _ => some "") (fun _ => none) (Client.SetWSDL ⟨"", false, none⟩ "://test.")
        "checkVat" (.struct ⟨"ReqParam", "gosoap.ReqParam"⟩ none
          [(⟨"VatNumber", "", false⟩, .string ""), (⟨"CountryCode", "", false⟩, .string "")])).sent
        = []) ∧
    ((process.doRequest (fun _ => some "") ⟨⟨"", .nil⟩, ""⟩ "://test.").result =
        .error .InvalidWsdlURLError ∧
     (process.doRequest (fun _ => some "") ⟨⟨"", .nil⟩, ""⟩ "://test.").sent = []) ∧
    wellFormedURL "test." = none ∧ wellFormedURL "/x" = none ∧ wellFormedURL "" = none ∧
    wellFormedURL "://teste." = none := by
  have h := Call_malformed_wsdl (fun _ => some "") (fun _ => none) ⟨"", false, none⟩ "://test."
    "checkVat" (.struct ⟨"ReqParam", "gosoap.ReqParam"⟩ none
      [(⟨"VatNumber", "", false⟩, .string ""), (⟨"CountryCode", "", false⟩, .string "")])
    ⟨⟨"", .nil⟩, ""⟩ (by decide)
  exact ⟨by decide, h.1 (by decide) rfl, h.2.2, by decide, by decide, by decide, by decide⟩

end gosoap
